import Mathlib

/-
Verification of the SCA capture/alignment framework.

Shallow embedding of:
  src/py/util.py              (hw_slow, hamming_dict, hw)
  src/py/preprocess.py        (detect_encryption_window, find_alignment_indices,
                               align_traces_roll, crop_baseline_normalize,
                               the bad-trace filter of preprocess_and_save)
  src/py/external_capture.py  (rigol_read_segment, dut_write_go_wait_read,
                               the saved-artifact shape of main)
  src/py/capture.py           (the trace-writer batch artifact)

Numeric samples are modelled as extended IEEE-style values: an exact rational
standing in for a float32, or NaN, or a signed infinity.  Exact rational
arithmetic idealizes float rounding; NaN/infinity propagation follows IEEE 754,
which is what the filtering and degradation claims are about.
-/

namespace SCA

/-- Extended sample value: a finite rational (idealized float32), NaN, or a
signed infinity.  NaN/infinity propagation in the operations below follows
IEEE 754 as implemented by numpy. -/
inductive FVal where
  | fin (q : ℚ)
  | nan
  | pinf
  | ninf
deriving DecidableEq

namespace FVal

/-- np.isnan on one sample. -/
def isnan : FVal → Bool
  | nan => true
  | _ => false

/-- Negation of a sample, true of np.isfinite. -/
def isNonFinite : FVal → Bool
  | fin _ => false
  | _ => true

/-- IEEE negation. -/
def neg : FVal → FVal
  | fin q => fin (-q)
  | nan => nan
  | pinf => ninf
  | ninf => pinf

/-- IEEE addition: NaN absorbs, opposite infinities give NaN. -/
def add : FVal → FVal → FVal
  | nan, _ => nan
  | _, nan => nan
  | pinf, ninf => nan
  | ninf, pinf => nan
  | pinf, _ => pinf
  | _, pinf => pinf
  | ninf, _ => ninf
  | _, ninf => ninf
  | fin a, fin b => fin (a + b)

/-- IEEE subtraction. -/
def sub (a b : FVal) : FVal := add a (neg b)

/-- IEEE multiplication: NaN absorbs, infinity times zero gives NaN. -/
def mul : FVal → FVal → FVal
  | nan, _ => nan
  | _, nan => nan
  | pinf, pinf => pinf
  | pinf, ninf => ninf
  | ninf, pinf => ninf
  | ninf, ninf => pinf
  | pinf, fin q => if 0 < q then pinf else if q < 0 then ninf else nan
  | fin q, pinf => if 0 < q then pinf else if q < 0 then ninf else nan
  | ninf, fin q => if 0 < q then ninf else if q < 0 then pinf else nan
  | fin q, ninf => if 0 < q then ninf else if q < 0 then pinf else nan
  | fin a, fin b => fin (a * b)

/-- Division of a sample by a natural count (as in a numpy mean); a mean over
zero elements is NaN, matching numpy's empty-slice behaviour. -/
def divNat (a : FVal) (n : ℕ) : FVal :=
  if n = 0 then nan
  else
    match a with
    | fin q => fin (q / (n : ℚ))
    | nan => nan
    | pinf => pinf
    | ninf => ninf

/-- Square of a sample. -/
def sq (a : FVal) : FVal := mul a a

end FVal

/-- Sum of a list of samples, numpy accumulation starting from 0. -/
def sumF (l : List FVal) : FVal := l.foldl FVal.add (FVal.fin 0)

/-- numpy mean of a 1-D array (NaN on an empty array). -/
def meanF (l : List FVal) : FVal := FVal.divNat (sumF l) l.length

/-- numpy population variance (ddof = 0) of a 1-D array: mean of squared
deviations from the mean.  numpy's std is the square root of this value. -/
def varF (l : List FVal) : FVal :=
  meanF (l.map (fun x => FVal.sq (FVal.sub x (meanF l))))

/--
np.isclose(row.std(), 0.0) with the default tolerances
(|std - 0| ≤ atol + rtol·|0| = 1e-8, and False whenever std is NaN or
infinite).  Since std = √variance and std ≥ 0, the test |std| ≤ 1e-8 is
equivalent to variance ≤ 1e-16, which keeps the definition inside ℚ without a
square root.
-/
def stdCloseZero (l : List FVal) : Bool :=
  match varF l with
  | FVal.fin v => decide (v ≤ 1 / 10 ^ 16)
  | _ => false

/-! ## util.py : Hamming weight -/

/-- Bit-by-bit Hamming weight, from hw_slow in util.py:
repeatedly add the low bit and shift right by one. -/
def hw_slow (a : ℕ) : ℕ :=
  if h : a = 0 then 0 else a % 2 + hw_slow (a / 2)
decreasing_by exact Nat.div_lt_self (Nat.pos_of_ne_zero h) one_lt_two

/-- The byte table of util.py, hamming_dict = {i: hw_slow(i) for i in range(256)};
it is only ever consulted at keys below 256. -/
def hamming_dict (i : ℕ) : ℕ := hw_slow i

/-- Table-driven Hamming weight, from hw in util.py:
look up one byte at a time and shift right by eight. -/
def hw (a : ℕ) : ℕ :=
  if h : a = 0 then 0 else hamming_dict (a % 256) + hw (a / 256)
decreasing_by exact Nat.div_lt_self (Nat.pos_of_ne_zero h) (by omega)

lemma hw_slow_zero : hw_slow 0 = 0 := by
  unfold hw_slow
  simp

lemma hw_slow_of_ne (a : ℕ) (h : a ≠ 0) : hw_slow a = a % 2 + hw_slow (a / 2) := by
  conv_lhs => unfold hw_slow
  simp [h]

/-- Splitting the bit-by-bit Hamming weight at any bit position. -/
lemma hw_slow_split (k : ℕ) : ∀ a : ℕ, hw_slow a = hw_slow (a % 2 ^ k) + hw_slow (a / 2 ^ k) := by
  induction k with
  | zero =>
    intro a
    simp [hw_slow_zero, Nat.mod_one]
  | succ k ih =>
    intro a
    by_cases ha : a = 0
    · simp [ha, Nat.zero_mod, Nat.zero_div, hw_slow_zero]
    · have hmod2 : a % 2 ^ (k + 1) % 2 = a % 2 := by
        have : (2 : ℕ) ∣ 2 ^ (k + 1) := dvd_pow_self 2 (Nat.succ_ne_zero k)
        exact Nat.mod_mod_of_dvd a this
      have hdiv2 : a % 2 ^ (k + 1) / 2 = a / 2 % 2 ^ k := by
        have h2 : (2 : ℕ) ^ (k + 1) = 2 * 2 ^ k := by ring
        rw [h2]
        exact Nat.mod_mul_right_div_self a 2 (2 ^ k)
      have hdd : a / 2 ^ (k + 1) = a / 2 / 2 ^ k := by
        rw [Nat.div_div_eq_div_mul]
        congr 1
        ring
      rw [hw_slow_of_ne a ha, ih (a / 2), hdd]
      by_cases hb : a % 2 ^ (k + 1) = 0
      · have hb2 : a % 2 = 0 := by rw [← hmod2, hb]
        have hb3 : a / 2 % 2 ^ k = 0 := by rw [← hdiv2, hb]
        rw [hb, hb2, hb3, hw_slow_zero]
        omega
      · rw [hw_slow_of_ne _ hb, hmod2, hdiv2]
        omega

/-- Claim C10: the table-driven Hamming weight hw agrees with the bit-by-bit
reference hw_slow on every natural number: the byte-lookup optimisation is
equivalent to the naive definition. -/
theorem c10_hw_eq_hw_slow (a : ℕ) : hw a = hw_slow a := by
  induction a using Nat.strong_induction_on with
  | _ a ih =>
    by_cases ha : a = 0
    · subst ha
      unfold hw
      simp [hw_slow_zero]
    · have hlt : a / 256 < a := Nat.div_lt_self (Nat.pos_of_ne_zero ha) (by omega)
      have h1 : hw a = hamming_dict (a % 256) + hw (a / 256) := by
        conv_lhs => unfold hw
        simp [ha]
      rw [h1, ih (a / 256) hlt, hamming_dict]
      have h256 : (256 : ℕ) = 2 ^ 8 := by norm_num
      rw [h256] at *
      exact (hw_slow_split 8 a).symm

/-! ## preprocess.py : alignment engine -/

/-- np.nan_to_num with nan = 0.0 and the default replacements for infinities:
NaN becomes 0 and the infinities become the largest finite float32 magnitude,
(2 - 2^-23)·2^127 = 2^128 - 2^104. -/
def nanToNum (x : FVal) : ℚ :=
  match x with
  | FVal.fin q => q
  | FVal.nan => 0
  | FVal.pinf => 2 ^ 128 - 2 ^ 104
  | FVal.ninf => -(2 ^ 128 - 2 ^ 104)

/-- np.diff along the sample axis of one row: successive differences,
one element shorter than the input. -/
def diffRow (r : List ℚ) : List ℚ := List.zipWith (fun x y => y - x) r r.tail

/-- np.abs(np.diff(np.nan_to_num(trace, nan=0.0))) for one trace, the
per-trace derivative magnitude used by both detection and alignment. -/
def absDeriv (r : List FVal) : List ℚ := (diffRow (r.map nanToNum)).map (fun v => |v|)

/-- deriv.mean(axis=0): column-wise mean over the given width. -/
def colMeans (rows : List (List ℚ)) (width : ℕ) : List ℚ :=
  (List.range width).map (fun j => (rows.map (fun r => r.getD j 0)).sum / (rows.length : ℚ))

/-- The _moving_average helper: np.convolve(x, np.ones(k)/k, mode="same").
Entry i of the output averages the samples of x inside the length-k window of
the full convolution that "same" centers at i, clipped to the array bounds;
for k ≤ 1 the input is returned unchanged. -/
def movingAverage (x : List ℚ) (k : ℕ) : List ℚ :=
  if k ≤ 1 then x
  else
    (List.range x.length).map (fun i =>
      let hi := min (x.length - 1) (i + (k - 1) / 2)
      let lo := i + (k - 1) / 2 + 1 - k
      ((x.drop lo).take (hi + 1 - lo)).sum / (k : ℚ))

/-- The smoothed activity signal of detect_encryption_window: mean absolute
first difference across traces, then moving-average smoothing. -/
def activity_smoothed (traces : List (List FVal)) (smooth_k : ℕ) : List ℚ :=
  movingAverage
    (colMeans (traces.map absDeriv) ((traces.headD []).length - 1)) smooth_k

/-- Mean of the quiescent baseline prefix activity_s[:max(1, pre_samples//2)]. -/
def baselineMu (acts : List ℚ) (pre_samples : ℕ) : ℚ :=
  let base := acts.take (max 1 (pre_samples / 2))
  base.sum / (base.length : ℚ)

/-- Population variance of the baseline prefix.  numpy computes its square
root as the std; the definitions below compare against the variance so that
everything stays inside ℚ. -/
def baselineVar (acts : List ℚ) (pre_samples : ℕ) : ℚ :=
  let base := acts.take (max 1 (pre_samples / 2))
  (base.map (fun a => (a - baselineMu acts pre_samples) ^ 2)).sum / (base.length : ℚ)

/-- The mask test activity_s > thr with thr = mu + thresh_std·sigma, where
sigma is the baseline std when positive and the 1e-9 floor otherwise.
Sqrt-free encoding: std > 0 iff variance > 0, and for the configured
nonnegative thresh_std, a > mu + t·√v (v > 0) iff mu < a and t²·v < (a-mu)². -/
def exceedsThreshold (acts : List ℚ) (pre_samples : ℕ) (thresh_std : ℚ) (a : ℚ) : Bool :=
  let mu := baselineMu acts pre_samples
  let v := baselineVar acts pre_samples
  if 0 < v then decide (mu < a) && decide (thresh_std ^ 2 * v < (a - mu) ^ 2)
  else decide (mu + thresh_std * (1 / 10 ^ 9) < a)

/--
detect_encryption_window from preprocess.py: smoothed mean absolute
derivative, baseline threshold, contiguous exceedance span widened by the
margin and clamped to the trace bounds; the whole trace [0, T) if no sample
exceeds the threshold.  Indices where the mask holds come from np.where via
List.enum; natural subtraction performs the max(0, ...) clamp of the start.
-/
def detect_encryption_window (traces : List (List FVal))
    (pre_samples smooth_k : ℕ) (thresh_std : ℚ) (margin : ℕ) : ℕ × ℕ :=
  let T := (traces.headD []).length
  let acts := activity_smoothed traces smooth_k
  match (acts.enum.filter
      (fun p => exceedsThreshold acts pre_samples thresh_std p.2)).map Prod.fst with
  | [] => (0, T)
  | i :: is => (is.foldl min i - margin, min T (is.foldl max i + 2 + margin))

/-- Index of the first maximum of a list, tail-recursive worker. -/
def argmaxAux : List ℚ → ℚ → ℕ → ℕ → ℕ
  | [], _, best, _ => best
  | x :: xs, bv, best, i => if bv < x then argmaxAux xs x i (i + 1) else argmaxAux xs bv best (i + 1)

/-- np.argmax on a 1-D array: index of the first occurrence of the maximum
(0 on an empty array, which numpy rejects; never reached under the
rectangularity hypotheses used below). -/
def argmaxIdx : List ℚ → ℕ
  | [] => 0
  | x :: xs => argmaxAux xs x 0 1

/--
find_alignment_indices from preprocess.py: clamp the search window to the
trace bounds; if the clamped window has fewer than two sample indices, fall
back to T//2 for every trace; otherwise return, per trace, one plus the index
of the maximum absolute first difference inside the derivative slice
[s, max(s+1, e-1)).
-/
def find_alignment_indices (traces : List (List FVal)) (search_window : ℤ × ℤ) : List ℤ :=
  let T := (traces.headD []).length
  let s := max 0 search_window.1
  let e := min (T : ℤ) search_window.2
  if e ≤ s + 1 then traces.map (fun _ => (T : ℤ) / 2)
  else
    let sN := s.toNat
    let e_d := max (sN + 1) (e.toNat - 1)
    traces.map (fun r =>
      ((argmaxIdx (((absDeriv r).drop sN).take (e_d - sN)) + sN + 1 : ℕ) : ℤ))

/-- np.roll of one trace by an integer shift: output index i holds input index
(i - shift) mod n, i.e. a left rotation by (-shift) mod n. -/
def rollList {α : Type} (l : List α) (s : ℤ) : List α :=
  l.rotate ((-s % (l.length : ℤ)).toNat)

/-- align_traces_roll from preprocess.py: roll each trace by
ref_index - event_index so that its event lands on the reference index. -/
def align_traces_roll {α : Type} (traces : List (List α)) (event_indices : List ℤ)
    (ref_index : ℤ) : List (List α) :=
  List.zipWith (fun t idx => rollList t (ref_index - idx)) traces event_indices

/-- Mean of a 1-D rational array (numpy convention 0/0 = 0 is never exercised
by the theorems below on nonempty slices). -/
def meanQ (l : List ℚ) : ℚ := l.sum / (l.length : ℚ)

/-- Population variance of a 1-D rational array; numpy's std is its square
root. -/
def varQ (l : List ℚ) : ℚ := meanQ (l.map (fun x => (x - meanQ l) ^ 2))

/-- Crop, baseline removal and optional detrend of crop_baseline_normalize
(the stages before the normalization divide): crop each trace to
[start, stop), subtract the mean over the clamped baseline window (falling
back to the full-row mean when that window is degenerate), and optionally
subtract the slow moving average with kernel max(3, int(0.05·width)). -/
def crop_stage1 (traces : List (List ℚ)) (start stop : ℕ)
    (baseline_window : ℤ × ℤ) (detrend : Bool) : List (List ℚ) :=
  let cropped := traces.map (fun r => (r.drop start).take (stop - start))
  let width := (cropped.headD []).length
  let aN := baseline_window.1.toNat
  let bZ := min (width : ℤ) baseline_window.2
  let based := cropped.map (fun r =>
    let baseline := if bZ ≤ (aN : ℤ) then meanQ r else meanQ ((r.drop aN).take (bZ.toNat - aN))
    r.map (fun x => x - baseline))
  if detrend then
    let slow_k := max 3 (width * 5 / 100)
    based.map (fun r => List.zipWith (fun x y => x - y) r (movingAverage r slow_k))
  else based

/-- The per-trace divisor of the normalization step: std[std == 0] = 1.0
substitutes 1.0 for an exactly-zero standard deviation.  numpy's std is the
square root of the variance; the square-root routine is passed in as sqrtQ. -/
def crop_effective_divisor (sqrtQ : ℚ → ℚ) (r : List ℚ) : ℚ :=
  let s := sqrtQ (varQ r)
  if s = 0 then 1 else s

/-- crop_baseline_normalize from preprocess.py: crop/baseline/detrend stages,
then optional division by the per-trace effective std, then optional final
smoothing. -/
def crop_baseline_normalize (sqrtQ : ℚ → ℚ) (traces : List (List ℚ)) (start stop : ℕ)
    (baseline_window : ℤ × ℤ) (detrend nrm : Bool) (smooth_k : ℕ) : List (List ℚ) :=
  let pre := crop_stage1 traces start stop baseline_window detrend
  let normed :=
    if nrm then pre.map (fun r => r.map (fun x => x / crop_effective_divisor sqrtQ r)) else pre
  if 1 < smooth_k then normed.map (fun r => movingAverage r smooth_k) else normed

/-- np.isnan(processed).any(axis=1) for one row. -/
def rowHasNaN (r : List FVal) : Bool := r.any FVal.isnan

/-- One row of the bad_mask of preprocess_and_save:
nan_mask | const_mask, i.e. the row contains a NaN sample or its std is
np.isclose to zero. -/
def rowBad (r : List FVal) : Bool := rowHasNaN r || stdCloseZero r

/-- Keep the entries of xs whose mask bit is false, preserving order; this is
the arr[good_idx] indexing of preprocess_and_save with
good_idx = np.where(~bad_mask)[0]. -/
def filterByMask {α : Type} (mask : List Bool) (xs : List α) : List α :=
  (List.zip mask xs).filterMap (fun p => if p.1 then none else some p.2)

/-- Step 4 of preprocess_and_save (remove bad traces): compute the bad mask
from the processed traces and drop the flagged rows from the trace array and
from every metadata array that is present. -/
def remove_bad_traces (processed : List (List FVal))
    (plaintexts ciphertexts keys : Option (List (List ℕ))) :
    List (List FVal) × Option (List (List ℕ)) × Option (List (List ℕ)) ×
      Option (List (List ℕ)) :=
  let mask := processed.map rowBad
  (filterByMask mask processed,
   plaintexts.map (filterByMask mask),
   ciphertexts.map (filterByMask mask),
   keys.map (filterByMask mask))

/-! ## Helper lemmas -/

lemma snd_mem_enumFrom {α : Type} :
    ∀ (l : List α) (n : ℕ) (p : ℕ × α), p ∈ l.enumFrom n → p.2 ∈ l := by
  intro l
  induction l with
  | nil => intro n p hp; simp [List.enumFrom] at hp
  | cons x xs ih =>
    intro n p hp
    simp only [List.enumFrom, List.mem_cons] at hp
    rcases hp with hp | hp
    · subst hp; exact List.mem_cons_self _ _
    · exact List.mem_cons_of_mem _ (ih (n + 1) p hp)

lemma snd_mem_enum {α : Type} (l : List α) (p : ℕ × α) (hp : p ∈ l.enum) : p.2 ∈ l :=
  snd_mem_enumFrom l 0 p hp

lemma rollList_zero {α : Type} (l : List α) : rollList l 0 = l := by
  unfold rollList
  simp

lemma argmaxAux_lt :
    ∀ (xs : List ℚ) (bv : ℚ) (best i : ℕ), best < i → argmaxAux xs bv best i < i + xs.length := by
  intro xs
  induction xs with
  | nil => intro bv best i h; simpa [argmaxAux] using h
  | cons x xs ih =>
    intro bv best i h
    unfold argmaxAux
    split
    · have := ih x i (i + 1) (Nat.lt_succ_self i)
      simp only [List.length_cons]
      omega
    · have := ih bv best (i + 1) (Nat.lt_succ_of_lt h)
      simp only [List.length_cons]
      omega

lemma argmaxIdx_lt (l : List ℚ) (h : l ≠ []) : argmaxIdx l < l.length := by
  cases l with
  | nil => exact absurd rfl h
  | cons x xs =>
    have := argmaxAux_lt xs x 0 1 Nat.zero_lt_one
    simp only [argmaxIdx, List.length_cons]
    omega

lemma length_absDeriv (r : List FVal) : (absDeriv r).length = r.length - 1 := by
  unfold absDeriv diffRow
  simp [List.length_zipWith]

lemma filterByMask_map_self {α : Type} (f : α → Bool) (xs : List α) :
    filterByMask (xs.map f) xs = xs.filter (fun x => !f x) := by
  induction xs with
  | nil => rfl
  | cons x xs ih =>
    simp only [List.map_cons, filterByMask, List.zip_cons_cons, List.filterMap_cons,
      List.filter_cons] at *
    cases hfx : f x <;> simp [hfx, ih]

lemma filterByMask_zip {α β : Type} (f : α → Bool) :
    ∀ (xs : List α) (ys : List β), ys.length = xs.length →
      filterByMask (xs.map f) ys
        = (xs.zip ys).filterMap (fun q => if f q.1 then none else some q.2) := by
  intro xs
  induction xs with
  | nil =>
    intro ys h
    cases ys with
    | nil => rfl
    | cons y ys => simp at h
  | cons x xs ih =>
    intro ys h
    cases ys with
    | nil => simp at h
    | cons y ys =>
      simp only [List.map_cons, filterByMask, List.zip_cons_cons, List.filterMap_cons] at *
      cases hfx : f x <;> simp [hfx, ih ys (by simpa using h)]

/-! ## Claim theorems for the alignment engine -/

/-- Claim C5: whenever no sample of the smoothed activity signal exceeds the
detection threshold, detect_encryption_window returns the entire trace as the
window, the interval [0, T) with T the per-trace sample count. -/
theorem c5_detect_window_full_range (traces : List (List FVal))
    (pre_samples smooth_k : ℕ) (thresh_std : ℚ) (margin : ℕ)
    (h : ∀ a ∈ activity_smoothed traces smooth_k,
        exceedsThreshold (activity_smoothed traces smooth_k) pre_samples thresh_std a = false) :
    detect_encryption_window traces pre_samples smooth_k thresh_std margin
      = (0, (traces.headD []).length) := by
  have hfil : ((activity_smoothed traces smooth_k).enum.filter
      (fun p => exceedsThreshold (activity_smoothed traces smooth_k) pre_samples thresh_std p.2))
        = [] := by
    refine List.filter_eq_nil_iff.mpr ?_
    intro p hp
    rw [h p.2 (snd_mem_enum _ p hp)]
    simp
  simp only [detect_encryption_window, hfil, List.map_nil]

/-- Claim C5 witness: a constant trace never exceeds the threshold and the
detected window is the full sample range. -/
theorem c5_detect_window_witness :
    detect_encryption_window [[FVal.fin 1, FVal.fin 1, FVal.fin 1, FVal.fin 1]] 150 11 3 50
      = (0, 4) :=
  c5_detect_window_full_range [[FVal.fin 1, FVal.fin 1, FVal.fin 1, FVal.fin 1]] 150 11 3 50
    (by with_unfolding_all exact of_decide_eq_true rfl)

/-- Claim C2 counterexample: with a degenerate search window the code falls
back to T//2, which lies outside the requested window [0, 1): on one
ten-sample trace and window (0, 1), find_alignment_indices returns index 5,
and 5 is not below the window end 1.  The claim as stated (every returned
index lies inside the input window, for every window) is therefore false. -/
theorem c2_locate_event_degenerate_window :
    find_alignment_indices [List.replicate 10 (FVal.fin 0)] (0, 1) = [5]
    ∧ ¬ ((5 : ℤ) < 1) := by
  constructor
  · decide
  · decide

/-- Claim C2 (amended): whenever the search window, clamped to the trace
bounds, still contains at least two sample indices, every index returned by
find_alignment_indices lies within the input window [start, stop). -/
theorem c2_locate_event_in_window (traces : List (List FVal)) (start stop : ℤ)
    (hrect : ∀ r ∈ traces, r.length = (traces.headD []).length)
    (hwin : max 0 start + 2 ≤ min (((traces.headD []).length : ℕ) : ℤ) stop) :
    ∀ i ∈ find_alignment_indices traces (start, stop), start ≤ i ∧ i < stop := by
  intro i hi
  have hnot : ¬ (min (((traces.headD []).length : ℕ) : ℤ) stop ≤ max 0 start + 1) := by omega
  simp only [find_alignment_indices] at hi
  rw [if_neg hnot] at hi
  obtain ⟨r, hr, rfl⟩ := List.mem_map.mp hi
  have hrlen : r.length = (traces.headD []).length := hrect r hr
  set T := (traces.headD []).length with hT
  set s := max 0 start with hs
  set e := min ((T : ℕ) : ℤ) stop with he
  have hs0 : 0 ≤ s := le_max_left 0 start
  have hse : s + 2 ≤ e := hwin
  have hsN : ((s.toNat : ℕ) : ℤ) = s := Int.toNat_of_nonneg hs0
  have heN : ((e.toNat : ℕ) : ℤ) = e := Int.toNat_of_nonneg (by omega)
  have heT : e.toNat ≤ T := by
    have : e ≤ (T : ℤ) := min_le_left _ _
    omega
  have hseN : s.toNat + 2 ≤ e.toNat := by omega
  have hed : max (s.toNat + 1) (e.toNat - 1) = e.toNat - 1 := by omega
  rw [hed]
  set sN := s.toNat with hsNdef
  set eN := e.toNat with heNdef
  have hslice : (((absDeriv r).drop sN).take (eN - 1 - sN)).length = eN - 1 - sN := by
    rw [List.length_take, List.length_drop, length_absDeriv, hrlen]
    omega
  have hne : ((absDeriv r).drop sN).take (eN - 1 - sN) ≠ [] := by
    intro hnil
    rw [hnil] at hslice
    simp at hslice
    omega
  have harg := argmaxIdx_lt _ hne
  rw [hslice] at harg
  constructor
  · have : start ≤ s := le_max_right 0 start
    omega
  · have : e ≤ stop := min_le_right _ _
    omega

/-- Claim C2 witness: on one four-sample trace with an edge at index 1 and
search window (0, 4), the returned index (which evaluates to 1) lies in the
window. -/
theorem c2_locate_event_witness : (0 : ℤ) ≤ 1 ∧ (1 : ℤ) < 4 :=
  c2_locate_event_in_window [[FVal.fin 0, FVal.fin 1, FVal.fin 0, FVal.fin 0]] 0 4
    (by decide) (by decide) 1 (by with_unfolding_all exact of_decide_eq_true rfl)

/-- Claim C6: align_traces_roll is the identity (exactly, hence a fortiori up
to floating-point tolerance) when every per-trace event index already equals
the reference index. -/
theorem c6_align_noop {α : Type} (traces : List (List α)) (event_indices : List ℤ)
    (ref_index : ℤ) (hlen : event_indices.length = traces.length)
    (h : ∀ e ∈ event_indices, e = ref_index) :
    align_traces_roll traces event_indices ref_index = traces := by
  unfold align_traces_roll
  induction traces generalizing event_indices with
  | nil => simp
  | cons t ts ih =>
    cases event_indices with
    | nil => simp at hlen
    | cons e es =>
      have he : e = ref_index := h e (List.mem_cons_self e es)
      rw [List.zipWith_cons_cons, he, sub_self, rollList_zero,
        ih es (by simpa using hlen) (fun x hx => h x (List.mem_cons_of_mem e hx))]

/-- Claim C6 witness: aligning two traces whose event indices both equal the
reference index 3 returns them unchanged. -/
theorem c6_align_noop_witness :
    align_traces_roll [[(1 : ℚ), 2, 3], [4, 5, 6]] [3, 3] 3 = [[(1 : ℚ), 2, 3], [4, 5, 6]] :=
  c6_align_noop [[(1 : ℚ), 2, 3], [4, 5, 6]] [3, 3] 3 (by decide)
    (by intro e he; simp at he; omega)

/-- Claim C7: the normalization divide of crop_baseline_normalize is total:
the per-trace effective divisor (the std with 1.0 substituted when the std is
exactly zero) is nonzero on every trace that reaches the divide, for every
input — including constant, zero-variance traces — and the function returns
one output trace per input trace. -/
theorem c7_normalize_divisor_nonzero (sqrtQ : ℚ → ℚ) (traces : List (List ℚ))
    (start stop : ℕ) (baseline_window : ℤ × ℤ) (detrend : Bool) (smooth_k : ℕ) :
    ((crop_stage1 traces start stop baseline_window detrend).all
        (fun r => decide (crop_effective_divisor sqrtQ r ≠ 0))) = true
    ∧ (crop_baseline_normalize sqrtQ traces start stop baseline_window detrend true
        smooth_k).length = traces.length := by
  constructor
  · rw [List.all_eq_true]
    intro r _
    rw [decide_eq_true_eq]
    simp only [crop_effective_divisor]
    split
    · exact one_ne_zero
    · assumption
  · have hlen : (crop_stage1 traces start stop baseline_window detrend).length
        = traces.length := by
      unfold crop_stage1
      split <;> simp
    simp only [crop_baseline_normalize, if_true]
    split <;> simp [hlen]

/-- Claim C1 counterexample: a trace containing an infinite (but not NaN)
sample is retained by the bad-trace filter of preprocess_and_save — np.isnan
does not flag infinities, and the std of such a trace is NaN, which
np.isclose never reports as close to zero.  The claim that the filter removes
every trace with a non-finite sample is therefore false, and the retained
trace has a non-finite sample. -/
theorem c1_filter_keeps_infinite_trace :
    (remove_bad_traces [[FVal.pinf, FVal.fin 0]] none none none).1
      = [[FVal.pinf, FVal.fin 0]]
    ∧ ([FVal.pinf, FVal.fin 0]).any FVal.isNonFinite = true := by
  constructor
  · decide
  · decide

/-- Claim C1 (amended): the filter step removes exactly the traces that
contain a NaN sample or whose std is np.isclose to zero; every parallel
metadata array shrinks by the identical index set, preserving relative order
(captured by the zip-filter characterization), and every retained trace is
NaN-free with non-near-zero variance. -/
theorem c1_filter_removes_exactly_nan_or_const (processed : List (List FVal))
    (plaintexts ciphertexts keys : List (List ℕ))
    (hp : plaintexts.length = processed.length)
    (hc : ciphertexts.length = processed.length)
    (hk : keys.length = processed.length) :
    remove_bad_traces processed (some plaintexts) (some ciphertexts) (some keys)
      = (processed.filter (fun r => !rowBad r),
         some ((processed.zip plaintexts).filterMap
            (fun q => if rowBad q.1 then none else some q.2)),
         some ((processed.zip ciphertexts).filterMap
            (fun q => if rowBad q.1 then none else some q.2)),
         some ((processed.zip keys).filterMap
            (fun q => if rowBad q.1 then none else some q.2)))
    ∧ ∀ r ∈ (remove_bad_traces processed (some plaintexts) (some ciphertexts)
        (some keys)).1, rowBad r = false := by
  constructor
  · simp only [remove_bad_traces, Option.map_some']
    rw [filterByMask_map_self,
      filterByMask_zip rowBad processed plaintexts hp,
      filterByMask_zip rowBad processed ciphertexts hc,
      filterByMask_zip rowBad processed keys hk]
  · intro r hr
    simp only [remove_bad_traces] at hr
    rw [filterByMask_map_self] at hr
    have := (List.mem_filter.mp hr).2
    simpa using this

/-- Claim C1 witness: on two traces (the second containing a NaN) with three
parallel metadata arrays, the filter drops exactly the NaN trace and the
corresponding metadata entries. -/
theorem c1_filter_witness :
    remove_bad_traces [[FVal.fin 0, FVal.fin 1], [FVal.nan, FVal.fin 0]]
        (some [[0], [1]]) (some [[2], [3]]) (some [[4], [5]])
      = ([[FVal.fin 0, FVal.fin 1], [FVal.nan, FVal.fin 0]].filter (fun r => !rowBad r),
         some (([[FVal.fin 0, FVal.fin 1], [FVal.nan, FVal.fin 0]].zip
            [[0], [1]]).filterMap (fun q => if rowBad q.1 then none else some q.2)),
         some (([[FVal.fin 0, FVal.fin 1], [FVal.nan, FVal.fin 0]].zip
            [[2], [3]]).filterMap (fun q => if rowBad q.1 then none else some q.2)),
         some (([[FVal.fin 0, FVal.fin 1], [FVal.nan, FVal.fin 0]].zip
            [[4], [5]]).filterMap (fun q => if rowBad q.1 then none else some q.2))) :=
  (c1_filter_removes_exactly_nan_or_const
    [[FVal.fin 0, FVal.fin 1], [FVal.nan, FVal.fin 0]]
    [[0], [1]] [[2], [3]] [[4], [5]] rfl rfl rfl).1

/-! ## external_capture.py : instrument readback and device driving

The hardware is modelled as an oracle supplying the outcome of each transport
interaction: the answer to the per-segment point query, the calibration
queries, and one outcome per binary-read attempt.  Every exception path of
rigol_read_segment is caught inside the source function, so its embedding is
a total function; dut_write_go_wait_read has exactly one uncaught raise (the
computation timeout), embedded as the error of an Except value. -/

/-- POINTS_PER_SEGMENT from external_capture.py. -/
def POINTS_PER_SEGMENT : ℕ := 500

/-- MAX_SEGMENT_READ_ATTEMPTS from external_capture.py. -/
def MAX_SEGMENT_READ_ATTEMPTS : ℕ := 2

/-- Outcome of one :WAV:DATA? read attempt: a transport/other exception
(VisaIOError or any other caught exception), or a raw byte block. -/
inductive ReadAttempt where
  | err
  | raw (data : List ℚ)
deriving DecidableEq

/-- An attempt that the retry loop treats as failed: an exception, or an
empty read (raw.size == 0, which the code warns about and retries). -/
def attemptFailed : ReadAttempt → Bool
  | ReadAttempt.err => true
  | ReadAttempt.raw d => d.isEmpty

/-- The NaN-filled fallback vector of length POINTS_PER_SEGMENT. -/
def nanVec (n : ℕ) : List FVal := List.replicate n FVal.nan

/-- The retry loop of rigol_read_segment over the outcomes of successive
attempts: an exception or empty read falls through to the next attempt; a
nonempty raw block is calibrated via value = (raw - yref)·yinc + yor and
returned.  none means every attempt failed. -/
def readLoop (yinc yref yor : ℚ) : List ReadAttempt → Option (List FVal)
  | [] => none
  | a :: rest =>
    match a with
    | ReadAttempt.err => readLoop yinc yref yor rest
    | ReadAttempt.raw d =>
      if d.isEmpty then readLoop yinc yref yor rest
      else some (d.map (fun r => FVal.fin ((r - yref) * yinc + yor)))

/-- rigol_read_segment from external_capture.py: the point query falls back
to POINTS_PER_SEGMENT when it fails (none); a zero-point segment yields the
NaN vector immediately; failed calibration queries fall back to
(yinc, yref, yor) = (1, 128, 0); at most MAX_SEGMENT_READ_ATTEMPTS read
attempts are made, and if all fail the NaN vector is returned instead of an
exception. -/
def rigol_read_segment (pointsQuery : Option ℕ) (calibQuery : Option (ℚ × ℚ × ℚ))
    (attempts : List ReadAttempt) : List FVal :=
  let n_points := pointsQuery.getD POINTS_PER_SEGMENT
  if n_points = 0 then nanVec POINTS_PER_SEGMENT
  else
    let calib := calibQuery.getD (1, 128, 0)
    match readLoop calib.1 calib.2.1 calib.2.2 (attempts.take MAX_SEGMENT_READ_ATTEMPTS) with
    | some v => v
    | none => nanVec POINTS_PER_SEGMENT

/-- The bound of the GO-register polling loop of dut_write_go_wait_read:
the loop raises once its counter exceeds 20000. -/
def MAX_GO_POLLS : ℕ := 20000

/-- The single failure of dut_write_go_wait_read: the computation timeout
(raise RuntimeError after the poll bound), the spec's ComputationTimeout. -/
inductive DutError where
  | timeout
deriving DecidableEq

/-- The GO-register wait loop: read k-th value of the GO register; a value
other than 0x01 ends the wait at index k; fuel bounds the number of reads of
0x01 tolerated before the timeout. -/
def pollGo (go : ℕ → ℕ) : ℕ → ℕ → Option ℕ
  | 0, _ => none
  | fuel + 1, k => if go k = 1 then pollGo go fuel (k + 1) else some k

/-- dut_write_go_wait_read from external_capture.py, after the input/key
writes and GO=1: poll the GO register, reading it once per iteration, until
it clears; after MAX_GO_POLLS + 1 consecutive reads of 0x01 the timeout is
raised; otherwise the 16 result-register bytes are read and returned
byte-reversed (fmt_rd).  go gives the byte returned by the k-th register
read, dataout the result-register contents at completion. -/
def dut_write_go_wait_read (go : ℕ → ℕ) (dataout : List ℕ) : Except DutError (List ℕ) :=
  match pollGo go (MAX_GO_POLLS + 1) 0 with
  | none => Except.error DutError.timeout
  | some _ => Except.ok dataout.reverse

/-! ## Batch artifacts (capture.py trace writer and external_capture.py main) -/

/-- TraceExt of capture.py, flattened: one wave plus the DutIO metadata the
writer stores. -/
structure TraceExt where
  wave : List FVal
  dut_io_data : ℕ
  dut_io_computed_data : ℕ
deriving DecidableEq

/-- The artifact one flush of write_traces_to_disk serializes. -/
structure WriterArtifact where
  wave : List (List FVal)
  dut_io_data : List ℕ
  dut_io_computed_data : List ℕ
deriving DecidableEq

/-- The flush of _create_trace_writer in capture.py: each stored array is a
comprehension over the same batch. -/
def write_traces_to_disk (batch : List TraceExt) : WriterArtifact :=
  { wave := batch.map TraceExt.wave,
    dut_io_data := batch.map TraceExt.dut_io_data,
    dut_io_computed_data := batch.map TraceExt.dut_io_computed_data }

/-- TraceMeta of external_capture.py: plaintext, key, ciphertext per logical
trace, as byte lists. -/
structure TraceMeta where
  pt : List ℕ
  key : List ℕ
  ct : List ℕ
deriving DecidableEq

/-- The arrays stored by np.savez_compressed in external_capture.py main. -/
structure CaptureArtifact where
  waves : List (List FVal)
  plaintexts : List (List ℕ)
  keys : List (List ℕ)
  ciphertexts : List (List ℕ)
deriving DecidableEq

/-- Element-wise mean across a group of segment rows, mean(axis=1) of one
reshape group. -/
def meanAxis0 (rows : List (List FVal)) : List FVal :=
  match rows with
  | [] => []
  | r :: _ => (List.range r.length).map (fun j =>
      FVal.divNat (sumF (rows.map (fun row => row.getD j FVal.nan))) rows.length)

/-- segs.reshape(N, A, -1).mean(axis=1): consecutive groups of
average_over rows are averaged element-wise; one output row per group. -/
def averageGroups (average_over : ℕ) (segs : List (List FVal)) : List (List FVal) :=
  (List.range (segs.length / average_over)).map
    (fun i => meanAxis0 ((segs.drop (i * average_over)).take average_over))

/-- The saved arrays of external_capture.py main: waves from the read
segments (software-averaged in groups when AVERAGE_OVER > 1), and the three
metadata arrays from the per-logical-trace metas list. -/
def capture_save_artifact (average_over : ℕ) (metas : List TraceMeta)
    (segs : List (List FVal)) : CaptureArtifact :=
  { waves := if 1 < average_over then averageGroups average_over segs else segs,
    plaintexts := metas.map TraceMeta.pt,
    keys := metas.map TraceMeta.key,
    ciphertexts := metas.map TraceMeta.ct }

/-! ## Claim theorems for capture -/

/-- Claim C3: whenever every read attempt fails or the selected segment
reports zero points, rigol_read_segment returns the NaN-filled vector of the
fixed configured length POINTS_PER_SEGMENT; the embedding is a total
function because the source catches every exception inside the retry loop,
so no exception reaches the caller. -/
theorem c3_read_segment_nan_on_failure (pointsQuery : Option ℕ)
    (calibQuery : Option (ℚ × ℚ × ℚ)) (attempts : List ReadAttempt)
    (h : pointsQuery = some 0 ∨ ∀ a ∈ attempts, attemptFailed a = true) :
    rigol_read_segment pointsQuery calibQuery attempts
      = List.replicate POINTS_PER_SEGMENT FVal.nan := by
  rcases h with h | h
  · subst h
    rfl
  · have hloop : ∀ (yinc yref yor : ℚ) (l : List ReadAttempt),
        (∀ a ∈ l, attemptFailed a = true) → readLoop yinc yref yor l = none := by
      intro yinc yref yor l
      induction l with
      | nil => intro _; rfl
      | cons a rest ih =>
        intro hall
        have ha := hall a (List.mem_cons_self a rest)
        have hrest : ∀ x ∈ rest, attemptFailed x = true :=
          fun x hx => hall x (List.mem_cons_of_mem a hx)
        cases a with
        | err =>
          simp only [readLoop]
          exact ih hrest
        | raw d =>
          simp only [attemptFailed] at ha
          simp only [readLoop, ha, if_true]
          exact ih hrest
    have htake : ∀ a ∈ attempts.take MAX_SEGMENT_READ_ATTEMPTS, attemptFailed a = true :=
      fun a ha => h a (List.take_subset _ _ ha)
    simp only [rigol_read_segment]
    split
    · rfl
    · rw [hloop _ _ _ _ htake]
      rfl

/-- Claim C3 witness: with both attempts failing (one exception, one empty
read) and no answer to the point query, the 500-sample NaN vector comes
back. -/
theorem c3_read_segment_witness :
    rigol_read_segment none (some (1, 128, 0)) [ReadAttempt.err, ReadAttempt.raw []]
      = List.replicate POINTS_PER_SEGMENT FVal.nan :=
  c3_read_segment_nan_on_failure none (some (1, 128, 0))
    [ReadAttempt.err, ReadAttempt.raw []] (Or.inr (by decide))

/-- Claim C4: if the GO register still reads 0x01 at every poll within the
iteration bound, dut_write_go_wait_read fails with the timeout error and
returns no result; if some poll within the bound sees the register cleared,
the result-register contents are read and returned (byte-reversed, as
fmt_rd does). -/
theorem c4_run_once_timeout_or_result (go : ℕ → ℕ) (dataout : List ℕ) :
    ((∀ k ≤ MAX_GO_POLLS, go k = 1) →
      dut_write_go_wait_read go dataout = Except.error DutError.timeout)
    ∧ ((∃ k, k ≤ MAX_GO_POLLS ∧ go k ≠ 1) →
      dut_write_go_wait_read go dataout = Except.ok dataout.reverse) := by
  have hnone : ∀ (fuel k0 : ℕ), (∀ j, j < fuel → go (k0 + j) = 1) →
      pollGo go fuel k0 = none := by
    intro fuel
    induction fuel with
    | zero => intro k0 _; rfl
    | succ fuel ih =>
      intro k0 hall
      have h0 : go k0 = 1 := by simpa using hall 0 (Nat.succ_pos fuel)
      simp only [pollGo, h0, if_true]
      refine ih (k0 + 1) ?_
      intro j hj
      have := hall (j + 1) (by omega)
      simpa [Nat.add_assoc, Nat.add_comm 1 j] using this
  have hsome : ∀ (fuel k0 : ℕ), (∃ j, j < fuel ∧ go (k0 + j) ≠ 1) →
      ∃ m, pollGo go fuel k0 = some m := by
    intro fuel
    induction fuel with
    | zero => intro k0 ⟨j, hj, _⟩; omega
    | succ fuel ih =>
      intro k0 ⟨j, hj, hgo⟩
      by_cases h0 : go k0 = 1
      · have hjne : j ≠ 0 := by
          intro hj0
          rw [hj0] at hgo
          simp at hgo
          exact hgo h0
        simp only [pollGo, h0, if_true]
        refine ih (k0 + 1) ⟨j - 1, by omega, ?_⟩
        have : k0 + 1 + (j - 1) = k0 + j := by omega
        rw [this]
        exact hgo
      · exact ⟨k0, by simp [pollGo, h0]⟩
  constructor
  · intro hall
    unfold dut_write_go_wait_read
    rw [hnone (MAX_GO_POLLS + 1) 0 (fun j hj => by simpa using hall j (by omega))]
  · intro ⟨k, hk, hgo⟩
    unfold dut_write_go_wait_read
    obtain ⟨m, hm⟩ := hsome (MAX_GO_POLLS + 1) 0 ⟨k, by omega, by simpa using hgo⟩
    rw [hm]

/-- Claim C4 witness: a device whose GO register never clears times out, and
a device whose GO register is already clear returns the reversed
result-register bytes. -/
theorem c4_run_once_witness :
    dut_write_go_wait_read (fun _ => 1) [10, 20] = Except.error DutError.timeout
    ∧ dut_write_go_wait_read (fun _ => 0) [10, 20] = Except.ok [20, 10] :=
  ⟨(c4_run_once_timeout_or_result (fun _ => 1) [10, 20]).1 (fun _ _ => rfl),
   (c4_run_once_timeout_or_result (fun _ => 0) [10, 20]).2 ⟨0, by omega, by decide⟩⟩

/-- Claim C8: every flushed batch artifact stores as many waveforms as every
parallel metadata array: the trace-writer artifact of capture.py by
construction, and the external_capture.py artifact whenever the capture loop
produced one meta per logical trace and one segment per trigger
(n·max(1, average_over) segments for n traces). -/
theorem c8_artifact_parallel_lengths (batch : List TraceExt) (n average_over : ℕ)
    (metas : List TraceMeta) (segs : List (List FVal))
    (hm : metas.length = n) (hs : segs.length = n * max 1 average_over) :
    ((write_traces_to_disk batch).wave.length
        = (write_traces_to_disk batch).dut_io_data.length
      ∧ (write_traces_to_disk batch).wave.length
        = (write_traces_to_disk batch).dut_io_computed_data.length)
    ∧ ((capture_save_artifact average_over metas segs).waves.length = n
      ∧ (capture_save_artifact average_over metas segs).plaintexts.length = n
      ∧ (capture_save_artifact average_over metas segs).keys.length = n
      ∧ (capture_save_artifact average_over metas segs).ciphertexts.length = n) := by
  refine ⟨⟨by simp [write_traces_to_disk], by simp [write_traces_to_disk]⟩, ?_, ?_, ?_, ?_⟩
  · simp only [capture_save_artifact]
    split
    · rename_i hgt
      have hmax : max 1 average_over = average_over := by omega
      rw [hmax] at hs
      simp [averageGroups, hs, Nat.mul_div_cancel n (by omega : 0 < average_over)]
    · rename_i hle
      have hmax : max 1 average_over = 1 := by omega
      rw [hmax, Nat.mul_one] at hs
      exact hs
  · simp [capture_save_artifact, hm]
  · simp [capture_save_artifact, hm]
  · simp [capture_save_artifact, hm]

/-- Claim C8 witness: one logical trace captured with two-fold software
averaging (two segments) and a one-trace writer batch give artifacts whose
waveform counts equal every metadata length. -/
theorem c8_artifact_witness :
    ((write_traces_to_disk [TraceExt.mk [FVal.fin 1] 3 4]).wave.length
        = (write_traces_to_disk [TraceExt.mk [FVal.fin 1] 3 4]).dut_io_data.length
      ∧ (write_traces_to_disk [TraceExt.mk [FVal.fin 1] 3 4]).wave.length
        = (write_traces_to_disk [TraceExt.mk [FVal.fin 1] 3 4]).dut_io_computed_data.length)
    ∧ ((capture_save_artifact 2 [TraceMeta.mk [1] [2] [3]]
          [[FVal.fin 1], [FVal.fin 3]]).waves.length = 1
      ∧ (capture_save_artifact 2 [TraceMeta.mk [1] [2] [3]]
          [[FVal.fin 1], [FVal.fin 3]]).plaintexts.length = 1
      ∧ (capture_save_artifact 2 [TraceMeta.mk [1] [2] [3]]
          [[FVal.fin 1], [FVal.fin 3]]).keys.length = 1
      ∧ (capture_save_artifact 2 [TraceMeta.mk [1] [2] [3]]
          [[FVal.fin 1], [FVal.fin 3]]).ciphertexts.length = 1) :=
  c8_artifact_parallel_lengths [TraceExt.mk [FVal.fin 1] 3 4] 1 2
    [TraceMeta.mk [1] [2] [3]] [[FVal.fin 1], [FVal.fin 3]] rfl rfl

end SCA
